import Mathlib

/-!
Shallow embedding of the data-cleaning and merge pipeline of
`src/PandasDFMerging.ipynb`.

The notebook loads two tables (Sleep, TrRec), cleans each and inner-merges
them on the date key:

Cell 4 (Sleep cleaning):
  Sleep['date'] = pd.to_datetime(Sleep['date']).dt.date
  Sleep.set_index('date', inplace=True)            -- default verify_integrity=False
  Sleep.columns = ['TotalSleep','Awake','REM','Light','Deep','Restless',
                   'Efficiency','Latency','AvgRHR','LowRHR','AvgHRV','TDiff','RespR']
  Sleep = Sleep.fillna(Sleep.mean())

Cell 6 (TrRec cleaning):
  TrRec['date'] = pd.to_datetime(TrRec['date']).dt.date
  TrRec.set_index('date', inplace=True)            -- default verify_integrity=False
  TrRec.columns = ['RecPts','RPE','TSS','Beers']
  TrRec['RecPts'] = pd.to_numeric(TrRec['RecPts'], errors='coerce')
  TrRec['RecPts'] = TrRec['RecPts'].fillna(TrRec['RecPts'].mean())
  TrRec['RPE'] = pd.to_numeric(TrRec['RPE'], errors='coerce')
  TrRec['RPE'] = TrRec['RPE'].fillna(0)
  TrRec['TSS'] = pd.to_numeric(TrRec['TSS'], errors='coerce')
  conditions = [RPE==0, RPE.between(0.1,3), RPE.between(3.1,5), RPE.between(5.1,7), RPE>7]
  values = [0, 41, 53, 77, 85]
  TrRec['TSS'] = np.where(TSS.isnull(), np.select(conditions, values), TSS)

Cell 8 (merge):
  STR = pd.merge(Sleep, TrRec, on='date')          -- default how='inner'

Numeric cell values are modelled as rationals; a pandas NaN (missing value)
in a numeric column is `Option.none`.  A raw (pre-coercion) cell is a
`RawCell`: a number, a non-numeric text token, or missing.  Dates are
modelled post-parsing as natural numbers (ordinal calendar dates).
-/

/-- A raw table cell before numeric coercion: a numeric value, a
non-numeric text token, or a missing value (NaN). -/
inductive RawCell where
  | num : ℚ → RawCell
  | text : String → RawCell
  | na : RawCell
deriving DecidableEq

/-- Whether a raw cell is missing (pandas NaN). -/
def RawCell.isna : RawCell → Bool
  | .na => true
  | _ => false

/-- Embedding of `pd.to_numeric(col, errors='coerce')` at cell level:
numbers pass through, anything that fails coercion becomes missing. -/
def to_numeric : RawCell → Option ℚ
  | .num q => some q
  | .text _ => none
  | .na => none

/-- Embedding of `Series.mean()`: the arithmetic mean of the non-missing
values of the column, or missing (NaN) when every value is missing. -/
def colMean (xs : List (Option ℚ)) : Option ℚ :=
  let p := xs.filterMap id
  if p.length = 0 then none else some (p.sum / (p.length : ℚ))

/-- Embedding of `fillna` at cell level: a present value is kept, a missing
value is replaced by the fill value.  Filling with a missing fill value
(NaN mean of an all-missing column) is a no-op. -/
def fillCell (c : Option ℚ) : Option ℚ → Option ℚ
  | none => c
  | some v => some v

/-- Embedding of `col.fillna(c)`: fill every missing cell of a column with
the constant `c`. -/
def fillnaConst (c : Option ℚ) (xs : List (Option ℚ)) : List (Option ℚ) :=
  xs.map (fillCell c)

/-- Embedding of `col.fillna(col.mean())`: fill every missing cell of a
column with the mean of its non-missing cells. -/
def fillMean (xs : List (Option ℚ)) : List (Option ℚ) :=
  fillnaConst (colMean xs) xs

/-- Errors of the pipeline's error taxonomy that the embedded fragment
could raise. -/
inductive PipelineError where
  | duplicateKey : PipelineError
deriving DecidableEq

/-- Embedding of `DataFrame.set_index(key, verify_integrity:=vi)`: the rows
are keyed by `key`; only when `vi` is true does pandas check the key for
duplicates and raise on a non-unique key.  Both call sites of the notebook
(`Sleep.set_index('date', inplace=True)` and
`TrRec.set_index('date', inplace=True)`) leave `verify_integrity` at its
default `false`. -/
def set_index (vi : Bool) (key : α → ℕ) (rows : List α) :
    Except PipelineError (List α) :=
  if vi ∧ ¬ (rows.map key).Nodup then .error .duplicateKey else .ok rows

/-- A Sleep row after date parsing and renaming: a date key and the 13
numeric metric columns `['TotalSleep','Awake','REM','Light','Deep',
'Restless','Efficiency','Latency','AvgRHR','LowRHR','AvgHRV','TDiff',
'RespR']`, in that order ('Deep' is column 4). -/
structure SleepRow where
  date : ℕ
  metrics : List (Option ℚ)
deriving DecidableEq

/-- Metric column `j` of a Sleep table. -/
def metricsCol (j : ℕ) (rows : List SleepRow) : List (Option ℚ) :=
  rows.map (fun r => r.metrics.getD j none)

/-- Helper for the row-wise view of `Sleep.fillna(Sleep.mean())`: fill the
cells of one row, cell `j` with fill value `means (k + j)`. -/
def fillRowFrom (means : ℕ → Option ℚ) : ℕ → List (Option ℚ) → List (Option ℚ)
  | _, [] => []
  | k, x :: xs => fillCell (means k) x :: fillRowFrom means (k + 1) xs

/-- Embedding of `Sleep = Sleep.fillna(Sleep.mean())`: every missing cell
of column `j` is filled with the mean of column `j`'s non-missing cells. -/
def sleepFillna (rows : List SleepRow) : List SleepRow :=
  rows.map (fun r =>
    ⟨r.date, fillRowFrom (fun j => colMean (metricsCol j rows)) 0 r.metrics⟩)

/-- The Sleep cleaning stage of cell 4 after date parsing: set the date
index (no integrity check) and mean-fill the metric columns. -/
def cleanSleep (rows : List SleepRow) : Except PipelineError (List SleepRow) :=
  (set_index false SleepRow.date rows).map sleepFillna

/-- A TrRec row after date parsing and renaming, before coercion: a date
key and the four raw columns `['RecPts','RPE','TSS','Beers']`. -/
structure TrRecRaw where
  date : ℕ
  recPts : RawCell
  rpe : RawCell
  tss : RawCell
  beers : RawCell
deriving DecidableEq

/-- A TrRec row after the cleaning of cell 6: `RecPts`, `RPE` and `TSS`
are numeric columns (missing = `none`); `Beers` is never coerced or filled
and is carried through as the raw cell. -/
structure TrRecClean where
  date : ℕ
  recPts : Option ℚ
  rpe : Option ℚ
  tss : Option ℚ
  beers : RawCell
deriving DecidableEq

/-- The `RecPts` column after coercion, `pd.to_numeric(TrRec['RecPts'],
errors='coerce')`. -/
def recPtsCoerced (rows : List TrRecRaw) : List (Option ℚ) :=
  rows.map (fun r => to_numeric r.recPts)

/-- Embedding of `np.select(conditions, values)` for one row, applied to
the already-filled `RPE` value: the five conditions are evaluated in
order with first-match-wins, and `np.select`'s default is 0. -/
def tssLookup (r : ℚ) : ℚ :=
  if r = 0 then 0
  else if 1/10 ≤ r ∧ r ≤ 3 then 41
  else if 31/10 ≤ r ∧ r ≤ 5 then 53
  else if 51/10 ≤ r ∧ r ≤ 7 then 77
  else if 7 < r then 85
  else 0

/-- One row of the TrRec column transformations of cell 6, given the mean
of the coerced `RecPts` column: coerce and mean-fill `RecPts`, coerce and
zero-fill `RPE`, coerce `TSS` and impute a missing `TSS` from the filled
`RPE` via `np.where(TSS.isnull(), np.select(conditions, values), TSS)`;
`Beers` is untouched. -/
def trRecRowClean (recMean : Option ℚ) (r : TrRecRaw) : TrRecClean :=
  let rpeFilled := fillCell (some 0) (to_numeric r.rpe)
  ⟨r.date,
   fillCell recMean (to_numeric r.recPts),
   rpeFilled,
   (match to_numeric r.tss with
    | some v => some v
    | none => some (tssLookup (rpeFilled.getD 0))),
   r.beers⟩

/-- The TrRec column transformations of cell 6 (after the index is set). -/
def trRecFill (rows : List TrRecRaw) : List TrRecClean :=
  rows.map (trRecRowClean (colMean (recPtsCoerced rows)))

/-- The TrRec cleaning stage of cell 6 after date parsing: set the date
index (no integrity check), then coerce and impute the columns. -/
def cleanTrRec (rows : List TrRecRaw) : Except PipelineError (List TrRecClean) :=
  (set_index false TrRecRaw.date rows).map trRecFill

/-- Embedding of `pd.merge(ls, rs, on=key)` with the default `how='inner'`:
each left row is paired with every right row sharing its key, preserving
left order. -/
def innerMerge (ka : α → ℕ) (kb : β → ℕ) (ls : List α) (rs : List β) :
    List (α × β) :=
  ls.flatMap (fun a => (rs.filter (fun b => kb b == ka a)).map (fun b => (a, b)))

/-- Cell 8, `STR = pd.merge(Sleep, TrRec, on='date')`: the inner join of
the two cleaned tables on the date key. -/
def merge (ls : List SleepRow) (rs : List TrRecClean) : List (SleepRow × TrRecClean) :=
  innerMerge SleepRow.date TrRecClean.date ls rs

/-- The whole embedded pipeline, cells 4-8: clean both tables, then
inner-merge them on the date key. -/
def pipeline (s : List SleepRow) (t : List TrRecRaw) :
    Except PipelineError (List (SleepRow × TrRecClean)) := do
  let s' ← cleanSleep s
  let t' ← cleanTrRec t
  pure (merge s' t')

/-! ### Basic lemmas about cells, means and fills -/

theorem fillCell_none (x : Option ℚ) : fillCell none x = x := by
  cases x <;> rfl

theorem fillCell_some_ne_none (c : ℚ) (x : Option ℚ) : fillCell (some c) x ≠ none := by
  cases x <;> simp [fillCell]

theorem colMean_eq_none_iff (xs : List (Option ℚ)) :
    colMean xs = none ↔ ∀ x ∈ xs, x = none := by
  unfold colMean
  simp only []
  constructor
  · intro h x hx
    by_contra hne
    obtain ⟨v, rfl⟩ := Option.ne_none_iff_exists'.mp hne
    have hv : v ∈ xs.filterMap id := List.mem_filterMap.mpr ⟨some v, hx, rfl⟩
    have hlen : xs.filterMap id ≠ [] := List.ne_nil_of_mem hv
    rw [if_neg (by simpa [List.length_eq_zero] using hlen)] at h
    exact Option.some_ne_none _ h
  · intro h
    have : xs.filterMap id = [] := List.filterMap_eq_nil_iff.mpr (by simpa using h)
    rw [this]
    simp

theorem fillnaConst_none (xs : List (Option ℚ)) : fillnaConst none xs = xs := by
  induction xs with
  | nil => rfl
  | cons x xs ih => simp [fillnaConst, fillCell_none] at ih ⊢ ; exact ih

theorem fillnaConst_of_no_none (c : Option ℚ) :
    ∀ xs : List (Option ℚ), (∀ x ∈ xs, x ≠ none) → fillnaConst c xs = xs := by
  intro xs
  induction xs with
  | nil => intro _; rfl
  | cons y ys ih =>
    intro h
    obtain ⟨v, rfl⟩ := Option.ne_none_iff_exists'.mp (h y (by simp))
    have := ih (fun z hz => h z (by simp [hz]))
    simpa [fillnaConst, fillCell] using this

theorem fillMean_of_all_none (xs : List (Option ℚ)) (h : ∀ x ∈ xs, x = none) :
    fillMean xs = xs := by
  rw [fillMean, (colMean_eq_none_iff xs).mpr h, fillnaConst_none]

theorem mem_fillMean_ne_none (xs : List (Option ℚ)) (h : ¬ ∀ x ∈ xs, x = none) :
    ∀ y ∈ fillMean xs, y ≠ none := by
  obtain ⟨m, hm⟩ := Option.ne_none_iff_exists'.mp
    (fun hc => h ((colMean_eq_none_iff xs).mp hc))
  intro y hy
  rw [fillMean, hm, fillnaConst] at hy
  obtain ⟨x, _, rfl⟩ := List.mem_map.mp hy
  exact fillCell_some_ne_none m x

theorem mem_fillMean_ne_none' (xs : List (Option ℚ)) (m : ℚ) (h : colMean xs = some m) :
    ∀ y ∈ fillMean xs, y ≠ none := by
  intro y hy
  rw [fillMean, h, fillnaConst] at hy
  obtain ⟨x, _, rfl⟩ := List.mem_map.mp hy
  exact fillCell_some_ne_none m x

/-! ### Row-wise versus column-wise views of the Sleep fill -/

theorem fillRowFrom_length (means : ℕ → Option ℚ) (k : ℕ) (m : List (Option ℚ)) :
    (fillRowFrom means k m).length = m.length := by
  induction m generalizing k with
  | nil => rfl
  | cons x xs ih => simp [fillRowFrom, ih]

theorem fillRowFrom_getD (means : ℕ → Option ℚ) (m : List (Option ℚ)) (k j : ℕ)
    (hj : j < m.length) :
    (fillRowFrom means k m).getD j none = fillCell (means (k + j)) (m.getD j none) := by
  induction m generalizing k j with
  | nil => simp at hj
  | cons x xs ih =>
    cases j with
    | zero => simp [fillRowFrom]
    | succ j =>
      have hj' : j < xs.length := by simpa using hj
      have := ih (k + 1) j hj'
      simpa [fillRowFrom, Nat.add_assoc, Nat.add_comm 1 j] using this

theorem metricsCol_sleepFillna (rows : List SleepRow)
    (h13 : ∀ r ∈ rows, r.metrics.length = 13) (j : ℕ) (hj : j < 13) :
    metricsCol j (sleepFillna rows) = fillMean (metricsCol j rows) := by
  have hrow : ∀ r ∈ rows,
      (fillRowFrom (fun j => colMean (metricsCol j rows)) 0 r.metrics).getD j none
        = fillCell (colMean (metricsCol j rows)) (r.metrics.getD j none) := by
    intro r hr
    have hlen : j < r.metrics.length := by rw [h13 r hr]; exact hj
    simpa using fillRowFrom_getD (fun j => colMean (metricsCol j rows)) r.metrics 0 j hlen
  calc metricsCol j (sleepFillna rows)
      = rows.map (fun r =>
          (fillRowFrom (fun j => colMean (metricsCol j rows)) 0 r.metrics).getD j none) := by
        rw [metricsCol, sleepFillna, List.map_map]
        rfl
    _ = rows.map (fun r => fillCell (colMean (metricsCol j rows)) (r.metrics.getD j none)) :=
        List.map_congr_left hrow
    _ = fillMean (metricsCol j rows) := by
        rw [fillMean, fillnaConst, metricsCol, List.map_map]
        rfl

/-- C9: Mean-imputation is idempotent: refilling an already mean-filled
column, recomputing the mean on the filled column, changes nothing. -/
theorem mean_imputation_idempotent (xs : List (Option ℚ)) :
    fillMean (fillMean xs) = fillMean xs := by
  by_cases hall : ∀ x ∈ xs, x = none
  · rw [fillMean_of_all_none xs hall, fillMean_of_all_none xs hall]
  · exact fillnaConst_of_no_none _ _ (mem_fillMean_ne_none xs hall)

/-- C6: in the Sleep cleaner each of the 13 metric columns is filled
independently: column j of the filled table is the mean-fill of column j
of the input, so every present value is kept, every missing value becomes
the mean of the column's non-missing values, and an entirely-missing
column is left unchanged. -/
theorem sleep_mean_fill_per_column (rows : List SleepRow)
    (h13 : ∀ r ∈ rows, r.metrics.length = 13) (j : ℕ) (hj : j < 13) :
    metricsCol j (sleepFillna rows) = fillMean (metricsCol j rows)
    ∧ (∀ (i : ℕ) (v : ℚ), (metricsCol j rows)[i]? = some (some v) →
        (metricsCol j (sleepFillna rows))[i]? = some (some v))
    ∧ (∀ (i : ℕ), (metricsCol j rows)[i]? = some none →
        (metricsCol j (sleepFillna rows))[i]? = some (colMean (metricsCol j rows)))
    ∧ ((∀ x ∈ metricsCol j rows, x = none) →
        metricsCol j (sleepFillna rows) = metricsCol j rows) := by
  have hcol := metricsCol_sleepFillna rows h13 j hj
  refine ⟨hcol, ?_, ?_, ?_⟩
  · intro i v hi
    rw [hcol, fillMean, fillnaConst, List.getElem?_map, hi]
    rfl
  · intro i hi
    rw [hcol, fillMean, fillnaConst, List.getElem?_map, hi]
    rfl
  · intro hall
    rw [hcol, fillMean_of_all_none _ hall]

/-- Witness table for the Sleep-side theorems: one row, 13 present
metrics. -/
def sleepW : List SleepRow :=
  [⟨7, [some 480, some 30, some 90, some 240, some 120, some 10, some 9,
        some 12, some 55, some 50, some 80, some 0, some 14]⟩]

theorem sleep_mean_fill_per_column_witness :
    metricsCol 4 (sleepFillna sleepW) = fillMean (metricsCol 4 sleepW)
    ∧ (∀ (i : ℕ) (v : ℚ), (metricsCol 4 sleepW)[i]? = some (some v) →
        (metricsCol 4 (sleepFillna sleepW))[i]? = some (some v))
    ∧ (∀ (i : ℕ), (metricsCol 4 sleepW)[i]? = some none →
        (metricsCol 4 (sleepFillna sleepW))[i]? = some (colMean (metricsCol 4 sleepW)))
    ∧ ((∀ x ∈ metricsCol 4 sleepW, x = none) →
        metricsCol 4 (sleepFillna sleepW) = metricsCol 4 sleepW) :=
  sleep_mean_fill_per_column sleepW (by decide) 4 (by decide)

/-! ### The TrRec cleaner, row by row -/

theorem trRecFill_getElem (rows : List TrRecRaw) (i : ℕ) (r : TrRecRaw)
    (hi : rows[i]? = some r) :
    (trRecFill rows)[i]? = some (trRecRowClean (colMean (recPtsCoerced rows)) r) := by
  rw [trRecFill, List.getElem?_map, hi]
  rfl

/-- C7: numeric coercion never raises: a cell either is numeric and keeps
its value or coerces to missing.  In the cleaned table, `RecPts` is the
coerced value mean-filled from the coerced column (a missing cell becomes
the column mean) and `RPE` is the coerced value zero-filled (a missing
cell becomes the literal 0). -/
theorem trrec_coercion_and_fill (rows : List TrRecRaw) (i : ℕ) (r : TrRecRaw)
    (hi : rows[i]? = some r) :
    (∀ c : RawCell, (∃ q, c = RawCell.num q ∧ to_numeric c = some q) ∨ to_numeric c = none)
    ∧ ((trRecFill rows)[i]?).map (fun c => c.recPts)
        = some (fillCell (colMean (recPtsCoerced rows)) (to_numeric r.recPts))
    ∧ (to_numeric r.recPts = none →
        ((trRecFill rows)[i]?).map (fun c => c.recPts) = some (colMean (recPtsCoerced rows)))
    ∧ ((trRecFill rows)[i]?).map (fun c => c.rpe)
        = some (fillCell (some 0) (to_numeric r.rpe))
    ∧ (to_numeric r.rpe = none →
        ((trRecFill rows)[i]?).map (fun c => c.rpe) = some (some 0)) := by
  rw [trRecFill_getElem rows i r hi]
  refine ⟨?_, rfl, ?_, rfl, ?_⟩
  · intro c
    cases c with
    | num q => exact Or.inl ⟨q, rfl, rfl⟩
    | text s => exact Or.inr rfl
    | na => exact Or.inr rfl
  · intro h
    simp [trRecRowClean, h, fillCell]
  · intro h
    simp [trRecRowClean, h, fillCell]

/-- Witness table for the TrRec-side theorems: four rows exercising a
present value, a failed coercion, a missing cell and an out-of-range
rating. -/
def trRecW : List TrRecRaw :=
  [⟨1, .num 8, .num 2, .num 50, .num 2⟩,
   ⟨2, .text "n/a", .na, .na, .na⟩,
   ⟨3, .num 6, .num 4, .na, .num 0⟩,
   ⟨4, .num 7, .num (61/20), .na, .num 1⟩]

theorem trrec_coercion_and_fill_witness :
    (∀ c : RawCell, (∃ q, c = RawCell.num q ∧ to_numeric c = some q) ∨ to_numeric c = none)
    ∧ ((trRecFill trRecW)[1]?).map (fun c => c.recPts)
        = some (fillCell (colMean (recPtsCoerced trRecW)) (to_numeric (TrRecRaw.mk 2 (.text "n/a") .na .na .na).recPts))
    ∧ (to_numeric (TrRecRaw.mk 2 (.text "n/a") .na .na .na).recPts = none →
        ((trRecFill trRecW)[1]?).map (fun c => c.recPts) = some (colMean (recPtsCoerced trRecW)))
    ∧ ((trRecFill trRecW)[1]?).map (fun c => c.rpe)
        = some (fillCell (some 0) (to_numeric (TrRecRaw.mk 2 (.text "n/a") .na .na .na).rpe))
    ∧ (to_numeric (TrRecRaw.mk 2 (.text "n/a") .na .na .na).rpe = none →
        ((trRecFill trRecW)[1]?).map (fun c => c.rpe) = some (some 0)) :=
  trrec_coercion_and_fill trRecW 1 (TrRecRaw.mk 2 (.text "n/a") .na .na .na) (by rfl)

/-- C8: a row whose `TSS` is present after coercion keeps its value
through the imputation, whatever its `RPE` is. -/
theorem tss_present_unchanged (rows : List TrRecRaw) (i : ℕ) (r : TrRecRaw) (v : ℚ)
    (hi : rows[i]? = some r) (hv : to_numeric r.tss = some v) :
    ((trRecFill rows)[i]?).map (fun c => c.tss) = some (some v) := by
  rw [trRecFill_getElem rows i r hi]
  simp [trRecRowClean, hv]

theorem tss_present_unchanged_witness :
    ((trRecFill trRecW)[0]?).map (fun c => c.tss) = some (some 50) :=
  tss_present_unchanged trRecW 0 ⟨1, .num 8, .num 2, .num 50, .num 2⟩ 50 (by rfl) (by rfl)

theorem trRecFill_tss_of_missing (rows : List TrRecRaw) (i : ℕ) (r : TrRecRaw)
    (hi : rows[i]? = some r) (hmiss : to_numeric r.tss = none) :
    ((trRecFill rows)[i]?).map (fun c => c.tss)
      = some (some (tssLookup ((fillCell (some 0) (to_numeric r.rpe)).getD 0))) := by
  rw [trRecFill_getElem rows i r hi]
  simp [trRecRowClean, hmiss]

/-- C3: a row whose `TSS` is missing after coercion gets the ordered
first-match-wins lookup on its zero-filled `RPE`; the lookup sends the
ratings 0, 2, 4, 6, 8 to exactly 0, 41, 53, 77, 85. -/
theorem tss_missing_lookup (rows : List TrRecRaw) (i : ℕ) (r : TrRecRaw)
    (hi : rows[i]? = some r) (hmiss : to_numeric r.tss = none) :
    ((trRecFill rows)[i]?).map (fun c => c.tss)
      = some (some (tssLookup ((fillCell (some 0) (to_numeric r.rpe)).getD 0)))
    ∧ tssLookup 0 = 0 ∧ tssLookup 2 = 41 ∧ tssLookup 4 = 53
    ∧ tssLookup 6 = 77 ∧ tssLookup 8 = 85 := by
  refine ⟨trRecFill_tss_of_missing rows i r hi hmiss, ?_, ?_, ?_, ?_, ?_⟩
  all_goals norm_num [tssLookup]

theorem tss_missing_lookup_witness :
    ((trRecFill trRecW)[2]?).map (fun c => c.tss)
      = some (some (tssLookup ((fillCell (some 0) (to_numeric (TrRecRaw.mk 3 (.num 6) (.num 4) .na (.num 0)).rpe)).getD 0)))
    ∧ tssLookup 0 = 0 ∧ tssLookup 2 = 41 ∧ tssLookup 4 = 53
    ∧ tssLookup 6 = 77 ∧ tssLookup 8 = 85 :=
  tss_missing_lookup trRecW 2 (TrRecRaw.mk 3 (.num 6) (.num 4) .na (.num 0)) (by rfl) (by rfl)

/-- C10: a row whose `TSS` is missing and whose filled `RPE` matches none
of the five `np.select` conditions receives `np.select`'s default, 0. -/
theorem tss_lookup_default (rows : List TrRecRaw) (i : ℕ) (rr : TrRecRaw) (r : ℚ)
    (hi : rows[i]? = some rr) (hmiss : to_numeric rr.tss = none)
    (hr : fillCell (some 0) (to_numeric rr.rpe) = some r)
    (h0 : r ≠ 0) (h1 : ¬ (1/10 ≤ r ∧ r ≤ 3)) (h2 : ¬ (31/10 ≤ r ∧ r ≤ 5))
    (h3 : ¬ (51/10 ≤ r ∧ r ≤ 7)) (h4 : ¬ (7 < r)) :
    ((trRecFill rows)[i]?).map (fun c => c.tss) = some (some 0) := by
  rw [trRecFill_tss_of_missing rows i rr hi hmiss, hr]
  simp only [Option.getD_some]
  rw [tssLookup, if_neg h0, if_neg h1, if_neg h2, if_neg h3, if_neg h4]

theorem tss_lookup_default_witness :
    ((trRecFill trRecW)[3]?).map (fun c => c.tss) = some (some 0) :=
  tss_lookup_default trRecW 3 ⟨4, .num 7, .num (61/20), .na, .num 1⟩ (61/20)
    (by rfl) (by rfl) (by rfl)
    (by norm_num) (by norm_num) (by norm_num) (by norm_num) (by norm_num)

/-! ### Missing values after cleaning (claim C1) and the alcohol column -/

/-- C1 counterexample input: the `Beers` (alcohol-count) column of
`trRecW` is not entirely missing, yet after cleaning row 1 still has a
missing `Beers` cell, because cell 6 never coerces or fills `Beers`. -/
theorem beers_missing_survives_cleaning :
    ((trRecFill trRecW)[1]?).map (fun c => c.beers) = some RawCell.na
    ∧ ¬ (∀ r ∈ trRecW, r.beers = RawCell.na) := by
  constructor
  · rfl
  · decide

/-- C1 amended: after cleaning, the 13 Sleep metric columns and the
`RecPts`, `RPE` and `TSS` columns contain no missing value, except a
column that is entirely missing after coercion; the `Beers`
(alcohol-count) column is exempt, being passed through unfilled. -/
theorem cleaning_no_missing_amended (srows : List SleepRow)
    (h13 : ∀ r ∈ srows, r.metrics.length = 13) (trows : List TrRecRaw) :
    (∀ j : ℕ, j < 13 → ¬ (∀ x ∈ metricsCol j srows, x = none) →
      ∀ x ∈ metricsCol j (sleepFillna srows), x ≠ none)
    ∧ (∀ c ∈ trRecFill trows, c.rpe ≠ none ∧ c.tss ≠ none)
    ∧ (¬ (∀ x ∈ recPtsCoerced trows, x = none) →
      ∀ c ∈ trRecFill trows, c.recPts ≠ none) := by
  refine ⟨?_, ?_, ?_⟩
  · intro j hj hne x hx
    rw [metricsCol_sleepFillna srows h13 j hj] at hx
    exact mem_fillMean_ne_none _ hne x hx
  · intro c hc
    obtain ⟨r, _, rfl⟩ := List.mem_map.mp hc
    constructor
    · exact fillCell_some_ne_none 0 (to_numeric r.rpe)
    · cases h : to_numeric r.tss <;> simp [trRecRowClean, h]
  · intro hne c hc
    obtain ⟨m, hm⟩ := Option.ne_none_iff_exists'.mp
      (fun hc0 => hne ((colMean_eq_none_iff _).mp hc0))
    obtain ⟨r, _, rfl⟩ := List.mem_map.mp hc
    show fillCell (colMean (recPtsCoerced trows)) (to_numeric r.recPts) ≠ none
    rw [hm]
    exact fillCell_some_ne_none m (to_numeric r.recPts)

theorem cleaning_no_missing_amended_witness :
    (∀ j : ℕ, j < 13 → ¬ (∀ x ∈ metricsCol j sleepW, x = none) →
      ∀ x ∈ metricsCol j (sleepFillna sleepW), x ≠ none)
    ∧ (∀ c ∈ trRecFill trRecW, c.rpe ≠ none ∧ c.tss ≠ none)
    ∧ (¬ (∀ x ∈ recPtsCoerced trRecW, x = none) →
      ∀ c ∈ trRecFill trRecW, c.recPts ≠ none) :=
  cleaning_no_missing_amended sleepW (by decide) trRecW

/-! ### Duplicate dates and `set_index` (claim C2) -/

/-- C2 counterexample input: two rows sharing the parsed date 5. -/
def dupDatesEx : List TrRecRaw :=
  [⟨5, .num 1, .num 1, .num 1, .num 1⟩,
   ⟨5, .num 2, .num 2, .num 2, .num 2⟩]

/-- C2 counterexample: a source table with a duplicate parsed date is
cleaned without any error; no `DuplicateKeyError` is raised before the
join. -/
theorem duplicate_dates_not_rejected :
    ¬ (dupDatesEx.map TrRecRaw.date).Nodup
    ∧ cleanTrRec dupDatesEx ≠ Except.error PipelineError.duplicateKey
    ∧ cleanTrRec dupDatesEx = Except.ok (trRecFill dupDatesEx) := by
  refine ⟨by decide, ?_, rfl⟩
  intro h
  rw [show cleanTrRec dupDatesEx = Except.ok (trRecFill dupDatesEx) from rfl] at h
  exact Except.noConfusion h

/-- C2 amended: setting the date as the row key never fails, because both
`set_index` call sites leave `verify_integrity` at its default `false`;
a duplicate parsed date is accepted silently and both cleaning stages
always succeed. -/
theorem set_index_never_fails (t : List TrRecRaw) (s : List SleepRow) :
    set_index false TrRecRaw.date t = Except.ok t
    ∧ cleanTrRec t = Except.ok (trRecFill t)
    ∧ cleanSleep s = Except.ok (sleepFillna s) :=
  ⟨rfl, rfl, rfl⟩

theorem set_index_never_fails_witness :
    set_index false TrRecRaw.date dupDatesEx = Except.ok dupDatesEx
    ∧ cleanTrRec dupDatesEx = Except.ok (trRecFill dupDatesEx)
    ∧ cleanSleep sleepW = Except.ok (sleepFillna sleepW) :=
  set_index_never_fails dupDatesEx sleepW

/-! ### The inner merge on the date key (claim C4) -/

theorem innerMerge_cons (ka : α → ℕ) (kb : β → ℕ) (a : α) (ls : List α) (rs : List β) :
    innerMerge ka kb (a :: ls) rs
      = (rs.filter fun b => kb b == ka a).map (fun b => (a, b)) ++ innerMerge ka kb ls rs := rfl

theorem filter_key_length (kb : β → ℕ) (rs : List β) (d : ℕ) :
    (rs.filter fun b => kb b == d).length = (rs.map kb).count d := by
  induction rs with
  | nil => rfl
  | cons b bs ih =>
    by_cases h : kb b = d
    · simp [List.filter_cons, List.count_cons, h, ih]
    · simp [List.filter_cons, List.count_cons, h, ih]

theorem innerMerge_fst_mem (ka : α → ℕ) (kb : β → ℕ) (ls : List α) (rs : List β)
    (p : α × β) (hp : p ∈ innerMerge ka kb ls rs) : p.1 ∈ ls := by
  obtain ⟨a, ha, hmem⟩ := List.mem_flatMap.mp hp
  obtain ⟨b, _, rfl⟩ := List.mem_map.mp hmem
  exact ha

theorem mem_innerMerge_keys (ka : α → ℕ) (kb : β → ℕ) (ls : List α) (rs : List β)
    (d : ℕ) :
    (∃ p ∈ innerMerge ka kb ls rs, ka p.1 = d) ↔ d ∈ ls.map ka ∧ d ∈ rs.map kb := by
  constructor
  · rintro ⟨p, hp, hd⟩
    obtain ⟨a, ha, hmem⟩ := List.mem_flatMap.mp hp
    obtain ⟨b, hb, rfl⟩ := List.mem_map.mp hmem
    obtain ⟨hbrs, hkey⟩ := List.mem_filter.mp hb
    refine ⟨List.mem_map.mpr ⟨a, ha, hd⟩, List.mem_map.mpr ⟨b, hbrs, ?_⟩⟩
    exact (Nat.beq_eq.mp (by simpa using hkey)).trans hd
  · rintro ⟨hdl, hdr⟩
    obtain ⟨a, ha, rfl⟩ := List.mem_map.mp hdl
    obtain ⟨b, hb, hkb⟩ := List.mem_map.mp hdr
    refine ⟨(a, b), List.mem_flatMap.mpr ⟨a, ha, List.mem_map.mpr
      ⟨b, List.mem_filter.mpr ⟨hb, by simp [hkb]⟩, rfl⟩⟩, rfl⟩

theorem innerMerge_keys_eq (ka : α → ℕ) (kb : β → ℕ) (ls : List α) (rs : List β) :
    (innerMerge ka kb ls rs).map (fun p => ka p.1)
      = ls.flatMap (fun a => List.replicate ((rs.map kb).count (ka a)) (ka a)) := by
  induction ls with
  | nil => rfl
  | cons a as ih =>
    rw [innerMerge_cons, List.map_append, ih, List.flatMap_cons]
    congr 1
    rw [List.map_map]
    rw [show ((fun p : α × β => ka p.1) ∘ fun b => (a, b)) = fun _ => ka a from rfl]
    rw [List.map_const', filter_key_length]

theorem count_flatMap_replicate_zero (ka : α → ℕ) (n : α → ℕ) (d : ℕ) :
    ∀ as : List α, d ∉ as.map ka →
      (as.flatMap fun a => List.replicate (n a) (ka a)).count d = 0 := by
  intro as
  induction as with
  | nil => intro _; rfl
  | cons a as ih =>
    intro hd
    rw [List.flatMap_cons, List.count_append, List.count_replicate]
    have h1 : ¬ ka a = d := fun h => hd (List.mem_map.mpr ⟨a, by simp, h⟩)
    have h2 : d ∉ as.map ka := fun h => hd (by simp [h])
    simp [h1, ih h2]

theorem innerMerge_keys_count_one (ka : α → ℕ) (kb : β → ℕ) (rs : List β) (d : ℕ)
    (hr : (rs.map kb).Nodup) (hdr : d ∈ rs.map kb) :
    ∀ ls : List α, (ls.map ka).Nodup → d ∈ ls.map ka →
      ((innerMerge ka kb ls rs).map (fun p => ka p.1)).count d = 1 := by
  intro ls
  induction ls with
  | nil => intro _ hdl; simp at hdl
  | cons a as ih =>
    intro hl hdl
    rw [List.map_cons] at hl hdl
    obtain ⟨hna, hnd⟩ := List.nodup_cons.mp hl
    rw [innerMerge_keys_eq, List.flatMap_cons, List.count_append, List.count_replicate]
    by_cases h : ka a = d
    · have hc1 : (rs.map kb).count d = 1 := List.count_eq_one_of_mem hr hdr
      have hz : d ∉ as.map ka := h ▸ hna
      rw [count_flatMap_replicate_zero ka _ d as hz]
      simp [h, hc1]
    · have hdl' : d ∈ as.map ka := by
        rcases List.mem_cons.mp hdl with h' | h'
        · exact absurd h'.symm h
        · exact h'
      have := ih hnd hdl'
      rw [innerMerge_keys_eq] at this
      simp [h, this]

theorem innerMerge_length (ka : α → ℕ) (kb : β → ℕ) (rs : List β)
    (hr : (rs.map kb).Nodup) :
    ∀ ls : List α, (innerMerge ka kb ls rs).length
      = ((ls.map ka).filter fun d => decide (d ∈ rs.map kb)).length := by
  intro ls
  induction ls with
  | nil => rfl
  | cons a as ih =>
    rw [innerMerge_cons, List.length_append, ih, List.map_cons, List.filter_cons,
      List.length_map, filter_key_length]
    by_cases h : ka a ∈ rs.map kb
    · rw [List.count_eq_one_of_mem hr h]
      simp [h]
      omega
    · rw [List.count_eq_zero.mpr h]
      simp [h]

/-- C4: the combined table is a strict inner join on the date key: a date
appears in the output exactly when it appears in both cleaned inputs,
a date present in both appears exactly once when each input's dates are
unique, and the output row count is the number of dates present in both
inputs. -/
theorem merge_strict_inner_join (ls : List SleepRow) (rs : List TrRecClean)
    (hl : (ls.map SleepRow.date).Nodup) (hr : (rs.map TrRecClean.date).Nodup) :
    (∀ d : ℕ, (∃ p ∈ merge ls rs, p.1.date = d)
        ↔ d ∈ ls.map SleepRow.date ∧ d ∈ rs.map TrRecClean.date)
    ∧ (∀ d : ℕ, d ∈ ls.map SleepRow.date → d ∈ rs.map TrRecClean.date →
        ((merge ls rs).map (fun p => p.1.date)).count d = 1)
    ∧ (merge ls rs).length
        = ((ls.map SleepRow.date).filter fun d => decide (d ∈ rs.map TrRecClean.date)).length := by
  refine ⟨?_, ?_, ?_⟩
  · intro d
    exact mem_innerMerge_keys SleepRow.date TrRecClean.date ls rs d
  · intro d hdl hdr
    exact innerMerge_keys_count_one SleepRow.date TrRecClean.date rs d hr hdr ls hl hdl
  · exact innerMerge_length SleepRow.date TrRecClean.date rs hr ls

theorem merge_strict_inner_join_witness :
    (∀ d : ℕ, (∃ p ∈ merge (sleepFillna sleepW) (trRecFill trRecW), p.1.date = d)
        ↔ d ∈ (sleepFillna sleepW).map SleepRow.date
          ∧ d ∈ (trRecFill trRecW).map TrRecClean.date)
    ∧ (∀ d : ℕ, d ∈ (sleepFillna sleepW).map SleepRow.date →
        d ∈ (trRecFill trRecW).map TrRecClean.date →
        ((merge (sleepFillna sleepW) (trRecFill trRecW)).map (fun p => p.1.date)).count d = 1)
    ∧ (merge (sleepFillna sleepW) (trRecFill trRecW)).length
        = (((sleepFillna sleepW).map SleepRow.date).filter
            fun d => decide (d ∈ (trRecFill trRecW).map TrRecClean.date)).length :=
  merge_strict_inner_join (sleepFillna sleepW) (trRecFill trRecW)
    (by decide) (by decide)

/-! ### The end-to-end scenario (claim C5) -/

/-- C5 scenario Sleep input: dates 1, 2, 3; all metrics present except the
`Deep` cell (column 4) of date 2; the `Deep` values of dates 1 and 3 are
`a` and `b`. -/
def sleepDemo (a b : ℚ) : List SleepRow :=
  [⟨1, [some 1, some 1, some 1, some 1, some a, some 1, some 1,
        some 1, some 1, some 1, some 1, some 1, some 1]⟩,
   ⟨2, [some 1, some 1, some 1, some 1, none, some 1, some 1,
        some 1, some 1, some 1, some 1, some 1, some 1]⟩,
   ⟨3, [some 1, some 1, some 1, some 1, some b, some 1, some 1,
        some 1, some 1, some 1, some 1, some 1, some 1]⟩]

/-- C5 scenario TrRec input: dates 2, 3, 4; date 3's `TSS` is missing and
its `RPE` is 4. -/
def trRecDemo : List TrRecRaw :=
  [⟨2, .num 10, .num 1, .num 100, .num 0⟩,
   ⟨3, .num 10, .num 4, .na, .num 0⟩,
   ⟨4, .num 10, .num 2, .num 20, .num 0⟩]

/-- C5: on the scenario input the pipeline's combined output holds exactly
the dates 2 and 3; date 2's `Deep` value is the mean of the `Deep` values
of dates 1 and 3; date 3's `TSS` is 53. -/
theorem end_to_end_scenario (a b : ℚ) :
    ∃ out, pipeline (sleepDemo a b) trRecDemo = Except.ok out
      ∧ out.map (fun p => p.1.date) = [2, 3]
      ∧ (out[0]?).map (fun p => p.1.metrics.getD 4 none) = some (some ((a + b) / 2))
      ∧ (out[1]?).map (fun p => p.2.tss) = some (some 53) := by
  have hmean : colMean [some a, none, some b] = some ((a + b) / 2) := by
    rw [show colMean [some a, none, some b]
        = some (List.sum [a, b] / ((([a, b] : List ℚ).length : ℕ) : ℚ)) from rfl]
    norm_num
  refine ⟨merge (sleepFillna (sleepDemo a b)) (trRecFill trRecDemo), rfl, ?_, ?_, ?_⟩
  · rfl
  · show some (colMean [some a, none, some b]) = some (some ((a + b) / 2))
    rw [hmean]
  · show some (some (tssLookup 4)) = some (some 53)
    norm_num [tssLookup]

theorem end_to_end_scenario_witness :
    ∃ out, pipeline (sleepDemo 30 50) trRecDemo = Except.ok out
      ∧ out.map (fun p => p.1.date) = [2, 3]
      ∧ (out[0]?).map (fun p => p.1.metrics.getD 4 none) = some (some ((30 + 50) / 2))
      ∧ (out[1]?).map (fun p => p.2.tss) = some (some 53) :=
  end_to_end_scenario 30 50

theorem mean_imputation_idempotent_witness :
    fillMean (fillMean [some 3, none, some 5]) = fillMean [some 3, none, some 5] :=
  mean_imputation_idempotent [some 3, none, some 5]
